import Mathlib

/-!
Verification of the BlockDB MongoDB streaming protocol extractor.

The development shallowly embeds the two revisions of the extractor found in
the repository:

* `message`, `mongodb` — the revision in `plugins/server/mongodb` whose
  `Extractor` buffers bytes, decodes a `MessageHeader` once strictly more than
  `HeaderLen` bytes are buffered, extracts at most one message per `Write`
  call, reconciles the caller identity with the shared `DialogContext`, emits
  a `LogEvent`, and resets.  Its `message` package (header codec, per-opcode
  payload decoders, `ExtractBasic`) is not part of the sources at hand and is
  modelled from the specification where noted.
* `v0` — the earlier revision (`extractor.go`) with `RequestExtractor`,
  `ResponseExtractor` and its own in-source `decodeHeader` and
  `extractMessage`.

Bytes are machine bytes; the Go `uint32(...)`/`int32(...)` conversions are
modelled with explicit `% 2^32` arithmetic.  The ledger writer's
`EnqueueSendToLedger` (and the `fmt.Println` of the old revision) are modelled
by returning the list of emitted events from `Write`.  Wall-clock timestamps
are outside the embedding and are omitted from the event model.
-/

/-- A machine byte. -/
abbrev Byte := Fin 256

deriving instance DecidableEq for Except

namespace message

/-- `message.HeaderLen`: the fixed wire header length — four 32-bit fields. -/
def HeaderLen : Nat := 16

/-- Byte at index `i` of a buffer (0 when out of range), as a natural number. -/
def byteAt (b : List Byte) (i : Nat) : Nat := (b.getD i 0).val

/-- Modelled from the spec: `common/bytes.GetInt32` is not under the sources at
hand; the wire format has fixed 32-bit fields, read little-endian.  This is the
unsigned 32-bit read. -/
def getUint32 (b : List Byte) (i : Nat) : Nat :=
  byteAt b i + 256 * byteAt b (i + 1) + 65536 * byteAt b (i + 2) +
    16777216 * byteAt b (i + 3)

/-- Reinterpret an unsigned 32-bit value as a signed `int32`. -/
def toInt32 (n : Nat) : Int :=
  if n < 2147483648 then (n : Int) else (n : Int) - 4294967296

/-- Modelled from the spec: signed 32-bit little-endian read
(`common/bytes.GetInt32`). -/
def getInt32 (b : List Byte) (i : Nat) : Int := toInt32 (getUint32 b i)

/-- The wire header of the current `message` package revision: `MessageSize`
is a `uint32` (the extractor compares it against `uint32(len(buf))`). -/
structure MessageHeader where
  MessageSize : Nat
  RequestID : Int
  ResponseTo : Int
  OpCode : Int
deriving DecidableEq

/-- Modelled from the spec: the opcode constants of the `message` package
(`message.OpReply` …) are not under the sources at hand; the values are the
MongoDB wire-protocol opcodes the names refer to. -/
def OpReply : Int := 1

def OpUpdate : Int := 2001

def OpInsert : Int := 2002

def Reserved : Int := 2003

def OpQuery : Int := 2004

def OpGetMore : Int := 2005

def OpDelete : Int := 2006

def OpKillCursors : Int := 2007

def OpCommand : Int := 2010

def OpCommandReply : Int := 2011

def OpMsg : Int := 2013

/-- The errors produced along the extraction paths, one constructor per
`fmt.Errorf` site of the sources (the Go code distinguishes them only by
message text). -/
inductive ExtractError where
  | insufficientHeaderBytes (expected got : Nat)
  | sizeMismatch (bytesLen headerSize : Nat)
  | unknownOpcode (code : Int)
  | notImplemented (opName : String)
  | initMongoMessageError (inner : ExtractError)
deriving DecidableEq

/-- Modelled from the spec: `message.DecodeHeader` is not under the sources at
hand.  Per spec §4.1 it requires at least the fixed header length and is a pure
function of its input bytes; the field layout is the one the in-source
`decodeHeader` (old revision) reads, with `MessageSize` as `uint32` in this
revision. -/
def DecodeHeader (b : List Byte) : Except ExtractError MessageHeader :=
  if b.length < HeaderLen then
    .error (.insufficientHeaderBytes HeaderLen b.length)
  else
    .ok { MessageSize := getUint32 b 0, RequestID := getInt32 b 4,
          ResponseTo := getInt32 b 8, OpCode := getInt32 b 12 }

/-- Modelled from the spec: the decoded payload of one wire message.  The
per-opcode decoders are not under the sources at hand; the spec fixes only
that each recognized opcode has its own decoder producing a value that the
shared `ExtractBasic` capability can consume, so the model records the header,
the exact message slice and the opcode whose decoder built it. -/
structure MongoMessage where
  header : MessageHeader
  body : List Byte
  op : Int
deriving DecidableEq

/-- Modelled from the spec: `message.NewReplyMessage` (implemented decoder). -/
def NewReplyMessage (h : MessageHeader) (b : List Byte) :
    Except ExtractError MongoMessage := .ok ⟨h, b, OpReply⟩

/-- Modelled from the spec: `message.NewQueryMessage` (implemented decoder). -/
def NewQueryMessage (h : MessageHeader) (b : List Byte) :
    Except ExtractError MongoMessage := .ok ⟨h, b, OpQuery⟩

/-- Modelled from the spec: `message.NewMsgMessage` (implemented decoder). -/
def NewMsgMessage (h : MessageHeader) (b : List Byte) :
    Except ExtractError MongoMessage := .ok ⟨h, b, OpMsg⟩

/-- A human-readable name for an opcode, used by the modelled `ExtractBasic`
for the operation-kind field. -/
def opCodeName (c : Int) : String :=
  if c = OpReply then "OP_REPLY"
  else if c = OpUpdate then "OP_UPDATE"
  else if c = OpInsert then "OP_INSERT"
  else if c = Reserved then "RESERVED"
  else if c = OpQuery then "OP_QUERY"
  else if c = OpGetMore then "OP_GET_MORE"
  else if c = OpDelete then "OP_DELETE"
  else if c = OpKillCursors then "OP_KILL_CURSORS"
  else if c = OpCommand then "OP_COMMAND"
  else if c = OpCommandReply then "OP_COMMAND_REPLY"
  else if c = OpMsg then "OP_MSG"
  else "UNKNOWN"

/-- The normalized audit tuple of spec §4.1. -/
structure BasicInfo where
  user : String
  db : String
  collection : String
  opName : String
  docId : String
deriving DecidableEq

/-- Modelled from the spec: the shared extraction capability
`MongoMessage.ExtractBasic`.  The payload grammar (BSON) is not under the
sources at hand; the spec fixes only that the capability is a pure function of
the decoded message returning the normalized five-tuple and that derived
fields may be empty depending on opcode coverage. -/
def MongoMessage.ExtractBasic (mm : MongoMessage) : BasicInfo :=
  { user := "", db := "", collection := "", opName := opCodeName mm.op,
    docId := "" }

/-- The `message.Message` fields the extractor reads and writes. -/
structure Message where
  DBUser : String
  DB : String
  Collection : String
  Op : String
  DocID : String
  MongoMsg : MongoMessage
deriving DecidableEq

/-- Builds the `message.Message` from a decoded `MongoMessage` through the
shared `ExtractBasic` capability (the tail of `extractMessage`). -/
def messageOfMongo (mm : MongoMessage) : Message :=
  { DBUser := mm.ExtractBasic.user, DB := mm.ExtractBasic.db,
    Collection := mm.ExtractBasic.collection, Op := mm.ExtractBasic.opName,
    DocID := mm.ExtractBasic.docId, MongoMsg := mm }

/-- The wrap-up after the opcode switch of `extractMessage`: a decoder error is
wrapped as the "init mongo message error", a decoded message goes through
`ExtractBasic`. -/
def finishMongo : Except ExtractError MongoMessage → Except ExtractError Message
  | .error e => .error (.initMongoMessageError e)
  | .ok mm => .ok (messageOfMongo mm)

/-- `extractMessage` of the current revision: the slice length must equal the
header's size; the opcode switch dispatches to the per-opcode decoders, the
recognized-but-unimplemented opcodes produce the "not implemented" errors, and
an unrecognized opcode is the (unwrapped) "unknown opcode" error. -/
def extractMessage (header : MessageHeader) (b : List Byte) :
    Except ExtractError Message :=
  if b.length ≠ header.MessageSize then
    .error (.sizeMismatch b.length header.MessageSize)
  else if header.OpCode = OpReply then finishMongo (NewReplyMessage header b)
  else if header.OpCode = OpUpdate then
    finishMongo (.error (.notImplemented "OpUpdate"))
  else if header.OpCode = OpInsert then
    finishMongo (.error (.notImplemented "OpInsert"))
  else if header.OpCode = Reserved then
    finishMongo (.error (.notImplemented "Reserved"))
  else if header.OpCode = OpQuery then finishMongo (NewQueryMessage header b)
  else if header.OpCode = OpGetMore then
    finishMongo (.error (.notImplemented "OpGetMore"))
  else if header.OpCode = OpDelete then
    finishMongo (.error (.notImplemented "OpDelete"))
  else if header.OpCode = OpKillCursors then
    finishMongo (.error (.notImplemented "OpKillCursors"))
  else if header.OpCode = OpCommand then
    finishMongo (.error (.notImplemented "OpCommand"))
  else if header.OpCode = OpCommandReply then
    finishMongo (.error (.notImplemented "OpCommandReply"))
  else if header.OpCode = OpMsg then finishMongo (NewMsgMessage header b)
  else .error (.unknownOpcode header.OpCode)

/-- The recognized opcode set (every case of the `extractMessage` switch). -/
def recognizedOpCodes : List Int :=
  [OpReply, OpUpdate, OpInsert, Reserved, OpQuery, OpGetMore, OpDelete,
   OpKillCursors, OpCommand, OpCommandReply, OpMsg]

/-- The opcodes whose decoders the current revision actually runs. -/
def implementedOpCodes : List Int := [OpReply, OpQuery, OpMsg]

/-- The name under which a recognized-but-unimplemented opcode is reported. -/
def notImplementedName (c : Int) : String :=
  if c = OpUpdate then "OpUpdate"
  else if c = OpInsert then "OpInsert"
  else if c = Reserved then "Reserved"
  else if c = OpGetMore then "OpGetMore"
  else if c = OpDelete then "OpDelete"
  else if c = OpKillCursors then "OpKillCursors"
  else if c = OpCommand then "OpCommand"
  else if c = OpCommandReply then "OpCommandReply"
  else "UNKNOWN"

/-- The message `extractMessage` produces for an implemented opcode. -/
def decodedMessage (h : MessageHeader) (b : List Byte) : Message :=
  messageOfMongo ⟨h, b, h.OpCode⟩

/-- The header a byte sequence declares (all-zero when it is too short to
decode). -/
def headerOf (m : List Byte) : MessageHeader :=
  match DecodeHeader m with
  | .error _ => ⟨0, 0, 0, 0⟩
  | .ok h => h

/-- A complete wire message the current revision can extract on its own: its
header decodes, its length equals the declared size, the size strictly
exceeds the header length, and the opcode has an implemented decoder. -/
def validMsg (m : List Byte) : Bool :=
  match DecodeHeader m with
  | .error _ => false
  | .ok h =>
    (m.length == h.MessageSize) && decide (HeaderLen < h.MessageSize) &&
      decide (h.OpCode ∈ implementedOpCodes)

end message

namespace mongodb

/-- Modelled from the spec: `multiplexer.DialogContext` is not under the
sources at hand.  Per spec §3/§4.3 it holds the immutable remote address and
the mutable caller identity. -/
structure DialogContext where
  remoteAddr : String
  User : String
deriving DecidableEq

/-- The audit event the extractor enqueues (`processors.LogEvent`).  The
wall-clock `Timestamp` field is outside the embedding and omitted; the Go
field named `Type` is rendered `Type'` because `Type` is reserved in Lean. -/
structure LogEvent where
  Type' : String
  Ip : String
  Data : message.Message
  PrimaryKey : String
  Identity : String
deriving DecidableEq

/-- The streaming extractor state of the current revision: the dialog context,
the optional held header, the byte buffer and the `extract` function field
(set to `extractMessage` by `NewExtractor`).  The ledger writer is modelled by
returning emitted events from `Write`. -/
structure Extractor where
  context : DialogContext
  header : Option message.MessageHeader
  buf : List Byte
  extract : message.MessageHeader → List Byte →
    Except message.ExtractError message.Message

/-- `NewExtractor`: empty buffer, no held header, `extract := extractMessage`. -/
def NewExtractor (context : DialogContext) : Extractor :=
  { context := context, header := none, buf := [],
    extract := message.extractMessage }

/-- `Extractor.init`: record the decoded header. -/
def Extractor.init (e : Extractor) (h : message.MessageHeader) : Extractor :=
  { e with header := some h }

/-- `Extractor.reset`: with a held header, drop the first `MessageSize` bytes
and clear the header; otherwise clear the buffer. -/
def Extractor.reset (e : Extractor) : Extractor :=
  match e.header with
  | none => { e with buf := [] }
  | some h => { e with buf := e.buf.drop h.MessageSize, header := none }

/-- The identity reconciliation of `Write`: a non-empty message identity is
promoted into the context, otherwise the message inherits the context's
current identity. -/
def applyContext (ctx : DialogContext) (msg : message.Message) :
    DialogContext × message.Message :=
  if msg.DBUser ≠ "" then ({ ctx with User := msg.DBUser }, msg)
  else (ctx, { msg with DBUser := ctx.User })

/-- The `LogEvent` built by `Write` for a freshly extracted message, given the
context state at extraction time. -/
def eventOf (ctx : DialogContext) (msg : message.Message) : LogEvent :=
  { Type' := "mongo", Ip := ctx.remoteAddr, Data := (applyContext ctx msg).2,
    PrimaryKey := (applyContext ctx msg).2.DocID,
    Identity := (applyContext ctx msg).2.DBUser }

/-- The outcome of one `Write` call: the reported byte count, the returned
error, the post-call extractor state, and the events enqueued to the ledger
writer during the call. -/
structure WriteResult where
  n : Nat
  err : Option message.ExtractError
  state : Extractor
  events : List LogEvent

/-- The tail of `Write` after the header-init block: return if no header is
held or the (`uint32`-truncated) buffered length is below the header's size;
otherwise extract exactly the first `MessageSize` bytes, on error return it,
on success reconcile identity, emit the event and reset. -/
def writeBody (e : Extractor) (n : Nat) : WriteResult :=
  match e.header with
  | none => ⟨n, none, e, []⟩
  | some h =>
    if e.buf.length % 4294967296 < h.MessageSize then ⟨n, none, e, []⟩
    else
      match e.extract h (e.buf.take h.MessageSize) with
      | .error err => ⟨n, some err, e, []⟩
      | .ok msg =>
        let ev := eventOf e.context msg
        let e1 : Extractor := { e with context := (applyContext e.context msg).1 }
        ⟨n, none, e1.reset, [ev]⟩

/-- `Extractor.Write` of the current revision: append the chunk; if no header
is held and the buffered length strictly exceeds `HeaderLen`, decode a header
(returning its error on failure); then run the body.  Every branch reports
`len(p)` consumed bytes. -/
def Extractor.Write (e : Extractor) (p : List Byte) : WriteResult :=
  let e1 : Extractor := { e with buf := e.buf ++ p }
  if e1.header = none ∧ message.HeaderLen < e1.buf.length then
    match message.DecodeHeader e1.buf with
    | .error err => ⟨p.length, some err, e1, []⟩
    | .ok h => writeBody (e1.init h) p.length
  else writeBody e1 p.length

/-- The outcome of feeding a list of chunks: final state, all events emitted,
and all errors returned along the way. -/
structure FeedResult where
  state : Extractor
  events : List LogEvent
  errs : List message.ExtractError

/-- Feed a list of chunks through successive `Write` calls. -/
def feedAll (e : Extractor) : List (List Byte) → FeedResult
  | [] => ⟨e, [], []⟩
  | c :: cs =>
    let r := e.Write c
    let rest := feedAll r.state cs
    ⟨rest.state, r.events ++ rest.events, r.err.toList ++ rest.errs⟩

end mongodb

namespace v0

/-!
The earlier revision of the extractor (`plugins/server/mongodb/extractor.go`):
`RequestExtractor`, `ResponseExtractor`, the in-source `decodeHeader` and its
own `extractMessage`.  In this revision `MessageSize` is an `int32` (the
extractor compares it against `int32(len(buf))`), the opcode switch calls the
per-opcode constructors without an error return, and the constructed
`LogEvent` is printed rather than enqueued (modelled, as for the current
revision, by returning the events emitted by the call).
-/

/-- The wire header as this revision reads it: all four fields `int32`. -/
structure MessageHeader where
  MessageSize : Int
  RequestID : Int
  ResponseTo : Int
  OpCode : Int
deriving DecidableEq

/-- `decodeHeader` of `extractor.go`: requires at least `HeaderLen` bytes and
reads the four `int32` fields; the declared size is not validated. -/
def decodeHeader (b : List Byte) : Except message.ExtractError MessageHeader :=
  if b.length < message.HeaderLen then
    .error (.insufficientHeaderBytes message.HeaderLen b.length)
  else
    .ok { MessageSize := message.getInt32 b 0, RequestID := message.getInt32 b 4,
          ResponseTo := message.getInt32 b 8, OpCode := message.getInt32 b 12 }

/-- Modelled from the spec: the decoded payload for this revision's `message`
package.  The constructors here have no error return (`m.MongoMsg =
message.NewQueryMessage(header, b)` in the source), so they are total. -/
structure MongoMessage where
  header : MessageHeader
  body : List Byte
  op : Int
deriving DecidableEq

/-- The `message.Message` fields this revision touches: only `MongoMsg` is
assigned; `DBUser` stays at its zero value. -/
structure Message where
  DBUser : String
  MongoMsg : MongoMessage
deriving DecidableEq

/-- `extractMessage` of `extractor.go`: no slice-length check; the opcode
switch assigns the per-opcode decoded payload, and only an unrecognized opcode
is an error. -/
def extractMessage (header : MessageHeader) (b : List Byte) :
    Except message.ExtractError Message :=
  if header.OpCode = message.OpReply then .ok ⟨"", ⟨header, b, message.OpReply⟩⟩
  else if header.OpCode = message.OpUpdate then
    .ok ⟨"", ⟨header, b, message.OpUpdate⟩⟩
  else if header.OpCode = message.OpInsert then
    .ok ⟨"", ⟨header, b, message.OpInsert⟩⟩
  else if header.OpCode = message.Reserved then
    .ok ⟨"", ⟨header, b, message.Reserved⟩⟩
  else if header.OpCode = message.OpQuery then
    .ok ⟨"", ⟨header, b, message.OpQuery⟩⟩
  else if header.OpCode = message.OpGetMore then
    .ok ⟨"", ⟨header, b, message.OpGetMore⟩⟩
  else if header.OpCode = message.OpDelete then
    .ok ⟨"", ⟨header, b, message.OpDelete⟩⟩
  else if header.OpCode = message.OpKillCursors then
    .ok ⟨"", ⟨header, b, message.OpKillCursors⟩⟩
  else if header.OpCode = message.OpCommand then
    .ok ⟨"", ⟨header, b, message.OpCommand⟩⟩
  else if header.OpCode = message.OpCommandReply then
    .ok ⟨"", ⟨header, b, message.OpCommandReply⟩⟩
  else if header.OpCode = message.OpMsg then
    .ok ⟨"", ⟨header, b, message.OpMsg⟩⟩
  else .error (.unknownOpcode header.OpCode)

/-- The `LogEvent` this revision constructs (its `Data` is the fixed string
"YOUR MESSAGE"); wall-clock `Timestamp` omitted as before. -/
structure LogEvent where
  Ip : String
  Data : String
  Identity : String
  Type' : String
deriving DecidableEq

/-- The request-direction extractor state of this revision. -/
structure RequestExtractor where
  header : Option MessageHeader
  buf : List Byte
  extract : MessageHeader → List Byte → Except message.ExtractError Message
  context : mongodb.DialogContext

/-- `NewRequestExtractor`. -/
def NewRequestExtractor (context : mongodb.DialogContext) : RequestExtractor :=
  { header := none, buf := [], extract := extractMessage, context := context }

/-- The outcome of one `RequestExtractor.Write` call.  `panics = true` marks a
Go run-time panic: the Go call unwinds at that point and returns nothing, so
the remaining fields of a panicking result are not observable behavior of the
program. -/
structure WriteResult where
  n : Nat
  err : Option message.ExtractError
  state : RequestExtractor
  events : List LogEvent
  panics : Bool

/-- `RequestExtractor.init`. -/
def RequestExtractor.init (e : RequestExtractor) (h : MessageHeader) :
    RequestExtractor := { e with header := some h }

/-- `RequestExtractor.reset`.  Reached only after a successful extraction,
whose guard in `writeBody` has excluded negative sizes, so `Int.toNat` is
exact here. -/
def RequestExtractor.reset (e : RequestExtractor) : RequestExtractor :=
  match e.header with
  | none => { e with buf := [] }
  | some h => { e with buf := e.buf.drop h.MessageSize.toNat, header := none }

/-- The tail of this revision's `Write` after the header-init block; the
buffered length is compared as `int32(len(e.buf))`.  A negative declared size
that passes that comparison makes the Go slice `e.buf[:e.header.MessageSize]`
panic (slice bounds out of range); that call is modelled with
`panics := true`.  A non-negative size reaching the slice cannot overrun:
`size ≤ int32(len(buf))` and `int32(len(buf)) ≤ len(buf)` for the values an
`int32` can hold, so `Int.toNat` is exact on the remaining path. -/
def writeBody (e : RequestExtractor) (n : Nat) : WriteResult :=
  match e.header with
  | none => ⟨n, none, e, [], false⟩
  | some h =>
    if message.toInt32 (e.buf.length % 4294967296) < h.MessageSize then
      ⟨n, none, e, [], false⟩
    else if h.MessageSize < 0 then
      ⟨n, none, e, [], true⟩
    else
      match e.extract h (e.buf.take h.MessageSize.toNat) with
      | .error err => ⟨n, some err, e, [], false⟩
      | .ok msg =>
        let ev : LogEvent := { Ip := e.context.remoteAddr, Data := "YOUR MESSAGE",
                               Identity := msg.DBUser, Type' := "mongo" }
        ⟨n, none, e.reset, [ev], false⟩

/-- `RequestExtractor.Write` of `extractor.go`. -/
def RequestExtractor.Write (e : RequestExtractor) (p : List Byte) : WriteResult :=
  let e1 : RequestExtractor := { e with buf := e.buf ++ p }
  if e1.header = none ∧ message.HeaderLen < e1.buf.length then
    match decodeHeader e1.buf with
    | .error err => ⟨p.length, some err, e1, [], false⟩
    | .ok h => writeBody (e1.init h) p.length
  else writeBody e1 p.length

/-- The response-direction extractor of this revision: a stateless stub. -/
structure ResponseExtractor where
  context : mongodb.DialogContext
deriving DecidableEq

/-- `ResponseExtractor.Write`: `return len(p), nil` — unconditionally. -/
def ResponseExtractor.Write (_e : ResponseExtractor) (p : List Byte) :
    Nat × Option message.ExtractError := (p.length, none)

end v0

/-!  Concrete wire data used to instantiate the theorems below. -/

/-- A sample dialog context with no identity resolved yet. -/
def ctx0 : mongodb.DialogContext := { remoteAddr := "10.0.0.7:51324", User := "" }

/-- A wire message of exactly `HeaderLen` bytes: `size = 16`, `requestId = 1`,
`responseTo = 0`, opcode `OP_QUERY` (2004), empty payload. -/
def msg16 : List Byte :=
  [16, 0, 0, 0, 1, 0, 0, 0, 0, 0, 0, 0, 212, 7, 0, 0]

/-- The header `msg16` declares. -/
def h16 : message.MessageHeader :=
  { MessageSize := 16, RequestID := 1, ResponseTo := 0, OpCode := 2004 }

/-- The spec's scenario message: `size = 20`, `requestId = 1`,
`responseTo = -1`, opcode `OP_QUERY` (2004), 4 payload bytes. -/
def msg20q : List Byte :=
  [20, 0, 0, 0, 1, 0, 0, 0, 255, 255, 255, 255, 212, 7, 0, 0, 1, 2, 3, 4]

/-- The header `msg20q` declares. -/
def h20q : message.MessageHeader :=
  { MessageSize := 20, RequestID := 1, ResponseTo := -1, OpCode := 2004 }

/-- A complete 20-byte message with the unrecognized opcode `0xFFFF`. -/
def badUnknown20 : List Byte :=
  [20, 0, 0, 0, 2, 0, 0, 0, 0, 0, 0, 0, 255, 255, 0, 0, 9, 9, 9, 9]

/-- The header `badUnknown20` declares. -/
def hUnknown20 : message.MessageHeader :=
  { MessageSize := 20, RequestID := 2, ResponseTo := 0, OpCode := 65535 }

/-- A complete 20-byte message with the recognized-but-unimplemented opcode
`OP_UPDATE` (2001). -/
def badUpdate20 : List Byte :=
  [20, 0, 0, 0, 3, 0, 0, 0, 0, 0, 0, 0, 209, 7, 0, 0, 8, 8, 8, 8]

/-- The header `badUpdate20` declares. -/
def hUpdate20 : message.MessageHeader :=
  { MessageSize := 20, RequestID := 3, ResponseTo := 0, OpCode := 2001 }

/-- 17 bytes whose header declares `size = 10 < HeaderLen` with opcode
`OP_QUERY` (2004). -/
def undersized17 : List Byte :=
  [10, 0, 0, 0, 0, 0, 0, 0, 0, 0, 0, 0, 212, 7, 0, 0, 5]

/-- The header `undersized17` declares, as the old revision reads it. -/
def hUndersized : v0.MessageHeader :=
  { MessageSize := 10, RequestID := 0, ResponseTo := 0, OpCode := 2004 }

/-- A valid 17-byte message: `size = 17`, opcode `OP_QUERY`, 1 payload byte. -/
def msg17 : List Byte :=
  [17, 0, 0, 0, 1, 0, 0, 0, 0, 0, 0, 0, 212, 7, 0, 0, 42]

/-- The header `msg17` declares. -/
def h17 : message.MessageHeader :=
  { MessageSize := 17, RequestID := 1, ResponseTo := 0, OpCode := 2004 }

/-- A valid 18-byte message: `size = 18`, opcode `OP_MSG` (2013), 2 payload
bytes. -/
def msg18 : List Byte :=
  [18, 0, 0, 0, 2, 0, 0, 0, 0, 0, 0, 0, 221, 7, 0, 0, 7, 7]

/-- The header `msg18` declares. -/
def h18 : message.MessageHeader :=
  { MessageSize := 18, RequestID := 2, ResponseTo := 0, OpCode := 2013 }

/-- A valid message of `2^32 - 1` bytes: `size = 4294967295`, opcode
`OP_QUERY`, zero-filled payload.  Together with `msg17` it overflows the
`uint32(len(e.buf))` comparison of `Write`. -/
def msgHuge : List Byte :=
  [255, 255, 255, 255, 2, 0, 0, 0, 0, 0, 0, 0, 212, 7, 0, 0] ++
    List.replicate 4294967279 (0 : Byte)

/-- The header `msgHuge` declares. -/
def hHuge : message.MessageHeader :=
  { MessageSize := 4294967295, RequestID := 2, ResponseTo := 0, OpCode := 2004 }

namespace mongodb

/-- The extractor state reached after buffering a proper portion `q` of one
message whose header is `h`: the header is held exactly when the buffered
length strictly exceeds `HeaderLen`. -/
def midState (ctx : DialogContext) (h : message.MessageHeader) (q : List Byte) :
    Extractor :=
  { context := ctx,
    header := if message.HeaderLen < q.length then some h else none,
    buf := q, extract := message.extractMessage }

/-- The extractor state after a completed extraction of message `m`: updated
context, cleared header, leftover bytes `r`. -/
def doneState (ctx : DialogContext) (m : message.Message) (r : List Byte) :
    Extractor :=
  { context := (applyContext ctx m).1, header := none, buf := r,
    extract := message.extractMessage }

/-- The event one complete wire message `m` produces when extracted with
context `ctx`. -/
def msgEvent (ctx : DialogContext) (m : List Byte) : LogEvent :=
  eventOf ctx (message.decodedMessage (message.headerOf m) m)

/-- The context after reconciling the identity of one extracted message. -/
def msgCtx (ctx : DialogContext) (m : List Byte) : DialogContext :=
  (applyContext ctx (message.decodedMessage (message.headerOf m) m)).1

/-- The events a run of consecutive complete messages produces, threading the
context through the identity reconciliation of each. -/
def drainEvents (ctx : DialogContext) : List (List Byte) → List LogEvent
  | [] => []
  | m :: ms => msgEvent ctx m :: drainEvents (msgCtx ctx m) ms

/-- The context left after a run of consecutive complete messages. -/
def drainCtx (ctx : DialogContext) : List (List Byte) → DialogContext
  | [] => ctx
  | m :: ms => drainCtx (msgCtx ctx m) ms

end mongodb

/-- A concrete value for the `extract` function field, used to instantiate
theorems that quantify over extractor states: it reports the caller identity
"alice" exactly for messages with `requestId = 1`. -/
def extractStub : message.MessageHeader → List Byte →
    Except message.ExtractError message.Message :=
  fun h _b =>
    .ok { DBUser := if h.RequestID = 1 then "alice" else "", DB := "",
          Collection := "", Op := "", DocID := "", MongoMsg := ⟨h, [], h.OpCode⟩ }

/-- A fresh extractor state carrying `extractStub`. -/
def stubExtractor : mongodb.Extractor :=
  { context := ctx0, header := none, buf := [], extract := extractStub }

/-- The message `extractStub` produces for `msg17` (it carries "alice"). -/
def mAlice : message.Message :=
  { DBUser := "alice", DB := "", Collection := "", Op := "", DocID := "",
    MongoMsg := ⟨h17, [], 2004⟩ }

/-- The message `extractStub` produces for `msg18` (no credentials). -/
def mAnon : message.Message :=
  { DBUser := "", DB := "", Collection := "", Op := "", DocID := "",
    MongoMsg := ⟨h18, [], 2013⟩ }

/-- An extractor holding the header `h20q` with only 16 of its 20 bytes
buffered. -/
def heldExtractor : mongodb.Extractor :=
  { context := ctx0, header := some h20q, buf := msg16,
    extract := message.extractMessage }

/-- An extractor holding the header of a complete buffered message whose
opcode is unrecognized, so its extraction fails. -/
def heldBadExtractor : mongodb.Extractor :=
  { context := ctx0, header := some hUnknown20, buf := badUnknown20,
    extract := message.extractMessage }

/-- 17 bytes whose size field decodes to the negative `int32` value `-5`
(`0xFFFFFFFB`), with opcode `OP_QUERY`: in the old revision this passes the
`int32(len) < size` comparison and panics at the slice. -/
def negSize17 : List Byte :=
  [251, 255, 255, 255, 0, 0, 0, 0, 0, 0, 0, 0, 212, 7, 0, 0, 1]

/-!  Helper lemmas about the byte-level codec. -/

theorem byteAt_append (b r : List Byte) (i : Nat) (hi : i < b.length) :
    message.byteAt (b ++ r) i = message.byteAt b i := by
  unfold message.byteAt
  rw [List.getD_append b r _ i hi]

theorem getUint32_append (b r : List Byte) (i : Nat) (hi : i + 3 < b.length) :
    message.getUint32 (b ++ r) i = message.getUint32 b i := by
  unfold message.getUint32
  rw [byteAt_append b r i (by omega), byteAt_append b r (i + 1) (by omega),
    byteAt_append b r (i + 2) (by omega), byteAt_append b r (i + 3) (by omega)]

theorem getInt32_append (b r : List Byte) (i : Nat) (hi : i + 3 < b.length) :
    message.getInt32 (b ++ r) i = message.getInt32 b i := by
  unfold message.getInt32
  rw [getUint32_append b r i hi]

theorem byteAt_lt (b : List Byte) (i : Nat) : message.byteAt b i < 256 :=
  (b.getD i 0).isLt

theorem getUint32_lt (b : List Byte) (i : Nat) :
    message.getUint32 b i < 4294967296 := by
  have h0 := byteAt_lt b i
  have h1 := byteAt_lt b (i + 1)
  have h2 := byteAt_lt b (i + 2)
  have h3 := byteAt_lt b (i + 3)
  unfold message.getUint32
  omega

/-- `DecodeHeader` reads only the first `HeaderLen` bytes: it is unchanged by
appending further bytes past a full header. -/
theorem DecodeHeader_append (b r : List Byte) (hb : message.HeaderLen ≤ b.length) :
    message.DecodeHeader (b ++ r) = message.DecodeHeader b := by
  unfold message.DecodeHeader
  have hlen : ¬ (b ++ r).length < message.HeaderLen := by
    simp [List.length_append]; omega
  have hlen' : ¬ b.length < message.HeaderLen := by omega
  rw [if_neg hlen, if_neg hlen']
  have hb16 : (16 : Nat) ≤ b.length := hb
  rw [getUint32_append b r 0 (by omega), getInt32_append b r 4 (by omega),
    getInt32_append b r 8 (by omega), getInt32_append b r 12 (by omega)]

/-- A decoded header's size field is a 32-bit value. -/
theorem DecodeHeader_size_lt (b : List Byte) (h : message.MessageHeader)
    (hd : message.DecodeHeader b = .ok h) : h.MessageSize < 4294967296 := by
  unfold message.DecodeHeader at hd
  by_cases hl : b.length < message.HeaderLen
  · rw [if_pos hl] at hd; cases hd
  · rw [if_neg hl] at hd
    cases hd
    exact getUint32_lt b 0

namespace mongodb

/-- `Write` without a held header and with strictly more than a header's worth
of buffered bytes decodes the header and continues with it held. -/
theorem Write_eq_decode (e : Extractor) (p : List Byte)
    (h : message.MessageHeader) (hnone : e.header = none)
    (hgt : message.HeaderLen < (e.buf ++ p).length)
    (hdec : message.DecodeHeader (e.buf ++ p) = .ok h) :
    e.Write p = writeBody ⟨e.context, some h, e.buf ++ p, e.extract⟩ p.length := by
  obtain ⟨ctx, hdr, buf, ext⟩ := e
  simp only at hnone hgt hdec
  subst hnone
  unfold Extractor.Write
  simp [hdec, hgt, Extractor.init]
  intro hle
  rw [List.length_append] at hgt
  omega

/-- `Write` with a held header skips header decoding and goes straight to the
body. -/
theorem Write_eq_body_held (e : Extractor) (p : List Byte)
    (h : message.MessageHeader) (hsome : e.header = some h) :
    e.Write p = writeBody ⟨e.context, some h, e.buf ++ p, e.extract⟩ p.length := by
  obtain ⟨ctx, hdr, buf, ext⟩ := e
  simp only at hsome
  subst hsome
  unfold Extractor.Write
  simp

/-- `Write` without a held header and with at most a header's worth of
buffered bytes only appends. -/
theorem Write_eq_append_only (e : Extractor) (p : List Byte)
    (hnone : e.header = none)
    (hle : (e.buf ++ p).length ≤ message.HeaderLen) :
    e.Write p = ⟨p.length, none, ⟨e.context, none, e.buf ++ p, e.extract⟩, []⟩ := by
  obtain ⟨ctx, hdr, buf, ext⟩ := e
  simp only at hnone hle
  subst hnone
  unfold Extractor.Write
  rw [if_neg (by simp only [List.length_append] at hle; simp; omega)]
  rfl

/-- The body returns unchanged while the (`uint32`-truncated) buffered length
is below the held header's size. -/
theorem writeBody_more (e : Extractor) (h : message.MessageHeader) (n : Nat)
    (hsome : e.header = some h)
    (hlt : e.buf.length % 4294967296 < h.MessageSize) :
    writeBody e n = ⟨n, none, e, []⟩ := by
  obtain ⟨ctx, hdr, buf, ext⟩ := e
  simp only at hsome
  subst hsome
  unfold writeBody
  simp only [if_pos hlt]

/-- The body surfaces an extraction error without touching the state. -/
theorem writeBody_err (e : Extractor) (h : message.MessageHeader) (n : Nat)
    (err : message.ExtractError) (hsome : e.header = some h)
    (hge : ¬ e.buf.length % 4294967296 < h.MessageSize)
    (hex : e.extract h (e.buf.take h.MessageSize) = .error err) :
    writeBody e n = ⟨n, some err, e, []⟩ := by
  obtain ⟨ctx, hdr, buf, ext⟩ := e
  simp only at hsome hex
  subst hsome
  unfold writeBody
  simp only [if_neg hge, hex]

/-- The body on a successful extraction emits the event, promotes the
identity, drops the consumed bytes, and clears the header. -/
theorem writeBody_ok (e : Extractor) (h : message.MessageHeader) (n : Nat)
    (m : message.Message) (hsome : e.header = some h)
    (hge : ¬ e.buf.length % 4294967296 < h.MessageSize)
    (hex : e.extract h (e.buf.take h.MessageSize) = .ok m) :
    writeBody e n = ⟨n, none,
      ⟨(applyContext e.context m).1, none, e.buf.drop h.MessageSize, e.extract⟩,
      [eventOf e.context m]⟩ := by
  obtain ⟨ctx, hdr, buf, ext⟩ := e
  simp only at hsome hex
  subst hsome
  unfold writeBody
  simp only [if_neg hge, hex]
  rfl

/-- `Write` without a held header surfaces a header-decode failure with the
appended buffer kept. -/
theorem Write_eq_decode_err (e : Extractor) (p : List Byte)
    (err : message.ExtractError) (hnone : e.header = none)
    (hgt : message.HeaderLen < (e.buf ++ p).length)
    (hdec : message.DecodeHeader (e.buf ++ p) = .error err) :
    e.Write p = ⟨p.length, some err, ⟨e.context, none, e.buf ++ p, e.extract⟩, []⟩ := by
  obtain ⟨ctx, hdr, buf, ext⟩ := e
  simp only at hnone hgt hdec
  subst hnone
  unfold Extractor.Write
  simp [hdec, hgt]
  intro hle
  rw [List.length_append] at hgt
  omega

/-- Every branch of the body reports the byte count it was given. -/
theorem writeBody_n (e : Extractor) (n : Nat) : (writeBody e n).n = n := by
  unfold writeBody
  split
  · rfl
  · split
    · rfl
    · split <;> rfl

/-- A held header is never replaced within one call: afterwards it is either
still held or cleared by the reset of a completed extraction. -/
theorem writeBody_header (e : Extractor) (h : message.MessageHeader) (n : Nat)
    (hsome : e.header = some h) :
    (writeBody e n).state.header = some h ∨ (writeBody e n).state.header = none := by
  obtain ⟨ctx, hdr, buf, ext⟩ := e
  simp only at hsome
  subst hsome
  unfold writeBody
  simp only []
  split
  · exact Or.inl rfl
  · cases hext : ext h (List.take h.MessageSize buf) with
    | error err => simp [hext]
    | ok m => simp [hext, Extractor.reset]

/-- The combined success shape of one `Write` call: with the header held or
decodable from the appended buffer, and the complete message buffered, the
call consumes the chunk, emits exactly the event of the extracted message,
keeps the remainder, and clears the header. -/
theorem Write_ok (e : Extractor) (p : List Byte) (h : message.MessageHeader)
    (m : message.Message)
    (hhdr : e.header = some h ∨
      (e.header = none ∧ message.HeaderLen < (e.buf ++ p).length ∧
        message.DecodeHeader (e.buf ++ p) = .ok h))
    (hge : h.MessageSize ≤ (e.buf ++ p).length % 4294967296)
    (hex : e.extract h ((e.buf ++ p).take h.MessageSize) = .ok m) :
    e.Write p = ⟨p.length, none,
      ⟨(applyContext e.context m).1, none, (e.buf ++ p).drop h.MessageSize,
        e.extract⟩, [eventOf e.context m]⟩ := by
  have hbody := writeBody_ok ⟨e.context, some h, e.buf ++ p, e.extract⟩ h
    p.length m rfl (by simpa using Nat.not_lt.mpr hge) (by simpa using hex)
  rcases hhdr with hsome | ⟨hnone, hgt, hdec⟩
  · rw [Write_eq_body_held e p h hsome, hbody]
  · rw [Write_eq_decode e p h hnone hgt hdec, hbody]

/-- While the appended buffer is still a proper portion of one message, a
`Write` call only appends (and decodes the header once past `HeaderLen`),
emitting nothing and returning no error. -/
theorem write_more_needed (ctx : DialogContext) (h : message.MessageHeader)
    (q c msg : List Byte) (hdec : message.DecodeHeader msg = .ok h)
    (hpre : (q ++ c) <+: msg) (hlt : (q ++ c).length < h.MessageSize) :
    (midState ctx h q).Write c = ⟨c.length, none, midState ctx h (q ++ c), []⟩ := by
  obtain ⟨t, ht⟩ := hpre
  have hmod : (q ++ c).length % 4294967296 < h.MessageSize :=
    lt_of_le_of_lt (Nat.mod_le _ _) hlt
  by_cases hq : message.HeaderLen < q.length
  · have hqc : message.HeaderLen < (q ++ c).length := by
      rw [List.length_append]; omega
    rw [Write_eq_body_held (midState ctx h q) c h (by simp [midState, hq])]
    rw [writeBody_more _ h _ rfl (by simpa [midState] using hmod)]
    simp [midState, hq, hqc]
    rw [List.length_append] at hqc
    exact hqc
  · by_cases hqc : message.HeaderLen < (q ++ c).length
    · have hdec' : message.DecodeHeader (q ++ c) = .ok h := by
        rw [← ht, DecodeHeader_append _ t (by omega)] at hdec
        exact hdec
      rw [Write_eq_decode (midState ctx h q) c h (by simp [midState, hq])
        (by simpa [midState] using hqc) (by simpa [midState] using hdec')]
      rw [writeBody_more _ h _ rfl (by simpa [midState] using hmod)]
      simp [midState, hq, hqc]
      rw [List.length_append] at hqc
      exact hqc
    · rw [Write_eq_append_only (midState ctx h q) c (by simp [midState, hq])
        (by simpa [midState] using Nat.not_lt.mp hqc)]
      simp [midState, hq, hqc]
      rw [List.length_append] at hqc
      rw [if_neg hqc]

/-- Feeding empty chunks to a drained extractor does nothing. -/
theorem feedAll_empty_chunks (cs : List (List Byte)) (hcs : ∀ c ∈ cs, c = [])
    (ctx : DialogContext) (ext : message.MessageHeader → List Byte →
      Except message.ExtractError message.Message) :
    feedAll ⟨ctx, none, [], ext⟩ cs = ⟨⟨ctx, none, [], ext⟩, [], []⟩ := by
  induction cs with
  | nil => rfl
  | cons c cs ih =>
    have hc : c = [] := hcs c (by simp)
    subst hc
    have hw := Write_eq_append_only (⟨ctx, none, [], ext⟩ : Extractor) []
      rfl (by simp [message.HeaderLen])
    simp only [List.append_nil] at hw
    unfold feedAll
    rw [hw]
    simp only []
    rw [ih (fun c hc => hcs c (List.mem_cons_of_mem _ hc))]
    simp

/-- Chunk-boundary invariance, generalized over an already-buffered proper
portion `q` of the message: feeding the remaining chunks completes exactly one
extraction with the message's event, leaving a drained extractor and no
errors. -/
theorem feedAll_completes (ctx : DialogContext) (h : message.MessageHeader)
    (msg : List Byte) (m : message.Message)
    (hdec : message.DecodeHeader msg = .ok h)
    (hsz : msg.length = h.MessageSize)
    (hgt : message.HeaderLen < msg.length)
    (hex : message.extractMessage h msg = .ok m) :
    ∀ (chunks : List (List Byte)) (q : List Byte),
      q ++ chunks.flatten = msg → q.length < h.MessageSize →
      feedAll (midState ctx h q) chunks =
        ⟨doneState ctx m [], [eventOf ctx m], []⟩ := by
  intro chunks
  induction chunks with
  | nil =>
    intro q hq hlt
    rw [List.flatten_nil, List.append_nil] at hq
    subst hq
    omega
  | cons c cs ih =>
    intro q hq hlt
    have hq' : (q ++ c) ++ cs.flatten = msg := by
      rw [← hq, List.flatten_cons, List.append_assoc]
    by_cases hc : (q ++ c).length < h.MessageSize
    · have hstep := write_more_needed ctx h q c msg hdec ⟨cs.flatten, hq'⟩ hc
      unfold feedAll
      rw [hstep]
      simp only []
      rw [ih (q ++ c) hq' hc]
      simp
    · have hlen : q.length + c.length + cs.flatten.length = msg.length := by
        rw [← hq']; simp only [List.length_append]
      rw [List.length_append] at hc
      have hflat : cs.flatten = [] := List.eq_nil_of_length_eq_zero (by omega)
      have hqc : q ++ c = msg := by
        rw [hflat, List.append_nil] at hq'
        exact hq'
      have hsize32 : h.MessageSize < 4294967296 := DecodeHeader_size_lt msg h hdec
      have hhdr : (midState ctx h q).header = some h ∨
          ((midState ctx h q).header = none ∧
            message.HeaderLen < ((midState ctx h q).buf ++ c).length ∧
            message.DecodeHeader ((midState ctx h q).buf ++ c) = .ok h) := by
        by_cases hql : message.HeaderLen < q.length
        · exact Or.inl (by simp [midState, hql])
        · refine Or.inr ⟨by simp [midState, hql], ?_, ?_⟩
          · simp only [midState]
            rw [hqc]
            exact hgt
          · simp only [midState]
            rw [hqc]
            exact hdec
      have hge : h.MessageSize ≤ ((midState ctx h q).buf ++ c).length % 4294967296 := by
        simp only [midState]
        rw [hqc, hsz, Nat.mod_eq_of_lt hsize32]
      have hex' : (midState ctx h q).extract h
          (((midState ctx h q).buf ++ c).take h.MessageSize) = .ok m := by
        simp only [midState]
        rw [hqc, ← hsz, List.take_length]
        exact hex
      have hW := Write_ok (midState ctx h q) c h m hhdr hge hex'
      unfold feedAll
      rw [hW]
      simp only []
      have hcs : ∀ x ∈ cs, x = [] := List.flatten_eq_nil_iff.mp hflat
      simp only [midState]
      rw [show (q ++ c).drop h.MessageSize = ([] : List Byte) from by
        rw [hqc, ← hsz, List.drop_length]]
      rw [feedAll_empty_chunks cs hcs (applyContext ctx m).1 message.extractMessage]
      simp [doneState]

end mongodb

/-- For an implemented opcode and an exact slice, `extractMessage` succeeds
with the message built through `ExtractBasic`. -/
theorem extractMessage_ok_impl (h : message.MessageHeader) (b : List Byte)
    (hlen : b.length = h.MessageSize)
    (himpl : h.OpCode ∈ message.implementedOpCodes) :
    message.extractMessage h b = .ok (message.decodedMessage h b) := by
  simp only [message.implementedOpCodes, List.mem_cons, List.mem_singleton,
    List.not_mem_nil, or_false] at himpl
  unfold message.extractMessage
  rw [if_neg (by omega)]
  rcases himpl with hop | hop | hop <;>
    simp [hop, message.OpReply, message.OpUpdate, message.OpInsert,
      message.Reserved, message.OpQuery, message.OpGetMore, message.OpDelete,
      message.OpKillCursors, message.OpCommand, message.OpCommandReply,
      message.OpMsg, message.NewReplyMessage, message.NewQueryMessage,
      message.NewMsgMessage, message.finishMongo, message.decodedMessage]

/-- Unpacking `validMsg`: a valid message decodes to its declared header, has
exactly the declared size, which strictly exceeds the header length, and
carries an implemented opcode. -/
theorem validMsg_spec (m : List Byte) (hv : message.validMsg m = true) :
    message.DecodeHeader m = .ok (message.headerOf m) ∧
    m.length = (message.headerOf m).MessageSize ∧
    message.HeaderLen < (message.headerOf m).MessageSize ∧
    (message.headerOf m).OpCode ∈ message.implementedOpCodes := by
  cases hdec : message.DecodeHeader m with
  | error err =>
    simp only [message.validMsg, hdec] at hv
    simp at hv
  | ok h =>
    simp only [message.validMsg, hdec, Bool.and_eq_true, beq_iff_eq,
      decide_eq_true_eq] at hv
    have hho : message.headerOf m = h := by
      simp only [message.headerOf, hdec]
    rw [hho]
    exact ⟨rfl, hv.1.1, hv.1.2, hv.2⟩

/-- One `Write` call on a headerless extractor whose appended buffer starts
with a complete valid message `m` followed by arbitrary trailing bytes `r`:
exactly `m` is extracted and emitted, exactly `r` remains buffered, and the
header is cleared — regardless of how many further messages or fragments `r`
contains (total buffered length below `2^32`). -/
theorem mongodb.Write_first_of (ctx : mongodb.DialogContext)
    (buf0 c m r : List Byte) (hval : message.validMsg m = true)
    (hbc : buf0 ++ c = m ++ r) (hlen : (m ++ r).length < 4294967296) :
    (⟨ctx, none, buf0, message.extractMessage⟩ : mongodb.Extractor).Write c =
      ⟨c.length, none,
        ⟨mongodb.msgCtx ctx m, none, r, message.extractMessage⟩,
        [mongodb.msgEvent ctx m]⟩ := by
  obtain ⟨hdec, hsz, hgt, himpl⟩ := validMsg_spec m hval
  have hex := extractMessage_ok_impl (message.headerOf m) m hsz himpl
  have hW := mongodb.Write_ok
    (⟨ctx, none, buf0, message.extractMessage⟩ : mongodb.Extractor) c
    (message.headerOf m)
    (message.decodedMessage (message.headerOf m) m)
    (Or.inr ⟨rfl,
      by show message.HeaderLen < (buf0 ++ c).length
         rw [hbc, List.length_append]
         omega,
      by show message.DecodeHeader (buf0 ++ c) = .ok (message.headerOf m)
         rw [hbc, DecodeHeader_append m r (by omega)]
         exact hdec⟩)
    (by show (message.headerOf m).MessageSize ≤ (buf0 ++ c).length % 4294967296
        rw [hbc, Nat.mod_eq_of_lt hlen, List.length_append]
        omega)
    (by show message.extractMessage (message.headerOf m)
          ((buf0 ++ c).take (message.headerOf m).MessageSize) =
          .ok (message.decodedMessage (message.headerOf m) m)
        rw [hbc, ← hsz, List.take_left]
        exact hex)
  rw [hW]
  unfold mongodb.msgCtx mongodb.msgEvent
  rw [show (buf0 ++ c).drop (message.headerOf m).MessageSize = r from by
    rw [hbc, ← hsz, List.drop_left]]

/-- Draining a buffer holding any run of consecutive complete valid messages
followed by arbitrary trailing bytes `extra`: one empty-chunk `Write` call
per message extracts exactly that message, in order, threading the context;
afterwards exactly `extra` remains buffered, with no errors. -/
theorem mongodb.feedAll_drains (msgs : List (List Byte)) :
    ∀ (ctx : mongodb.DialogContext) (extra : List Byte),
      (∀ m ∈ msgs, message.validMsg m = true) →
      (msgs.flatten ++ extra).length < 4294967296 →
      mongodb.feedAll
        ⟨ctx, none, msgs.flatten ++ extra, message.extractMessage⟩
        (List.replicate msgs.length []) =
        ⟨⟨mongodb.drainCtx ctx msgs, none, extra, message.extractMessage⟩,
          mongodb.drainEvents ctx msgs, []⟩ := by
  induction msgs with
  | nil =>
    intro ctx extra _ _
    simp [mongodb.feedAll, mongodb.drainCtx, mongodb.drainEvents]
  | cons m ms ih =>
    intro ctx extra hval hlen
    have hvm : message.validMsg m = true := hval m (by simp)
    have hassoc : (m :: ms).flatten ++ extra = m ++ (ms.flatten ++ extra) := by
      simp [List.flatten_cons, List.append_assoc]
    have hlen' : (m ++ (ms.flatten ++ extra)).length < 4294967296 := by
      rw [← hassoc]
      exact hlen
    have hstep := mongodb.Write_first_of ctx ((m :: ms).flatten ++ extra) [] m
      (ms.flatten ++ extra) hvm (by rw [List.append_nil]; exact hassoc) hlen'
    have hlen'' : (ms.flatten ++ extra).length < 4294967296 := by
      rw [List.length_append] at hlen'
      omega
    rw [show List.replicate (m :: ms).length ([] : List Byte) =
      [] :: List.replicate ms.length [] from by
        rw [List.length_cons, List.replicate_succ]]
    unfold mongodb.feedAll
    rw [hstep]
    simp only []
    rw [ih (mongodb.msgCtx ctx m) extra
      (fun x hx => hval x (List.mem_cons_of_mem _ hx)) hlen'']
    simp [mongodb.drainEvents, mongodb.drainCtx]

namespace v0

/-- Every branch of the old revision's body reports the byte count it was
given. -/
theorem writeBody_reports_n (e : RequestExtractor) (n : Nat) : (writeBody e n).n = n := by
  unfold writeBody
  split
  · rfl
  · split
    · rfl
    · split
      · rfl
      · split <;> rfl

/-- `RequestExtractor.Write` reports `len(p)` on every branch. -/
theorem RequestExtractor_Write_n (e : RequestExtractor) (p : List Byte) :
    (e.Write p).n = p.length := by
  unfold RequestExtractor.Write
  simp only []
  split
  · split
    · rfl
    · exact writeBody_reports_n _ _
  · exact writeBody_reports_n _ _

end v0

namespace mongodb

/-- `Extractor.Write` reports `len(p)` on every branch. -/
theorem Extractor_Write_n (e : Extractor) (p : List Byte) :
    (e.Write p).n = p.length := by
  unfold Extractor.Write
  simp only []
  split
  · split
    · rfl
    · exact writeBody_n _ _
  · exact writeBody_n _ _

end mongodb

/-!  The claims. -/

/-- C7: for every input chunk `p`, `Write` on either direction's endpoint
returns `n = len(p)` (full consumption) on every call — including calls that
complete no message and calls that return an error — and the outbound
(server→client) `ResponseExtractor.Write` never returns a non-nil error.  In
the current revision both directions are served by `Extractor.Write`, whose
every return reports full consumption (its `uint32` size field cannot make
the slice panic); the outbound stub returns `(len(p), nil)` unconditionally.
The old revision's `RequestExtractor.Write` reports full consumption on every
call that returns: a negative declared size makes the Go call panic at the
slice instead of returning, so its conjunct is guarded by the absence of that
panic. -/
theorem c7_write_full_consumption :
    (∀ (e : mongodb.Extractor) (p : List Byte), (e.Write p).n = p.length) ∧
    (∀ (e : v0.ResponseExtractor) (p : List Byte), e.Write p = (p.length, none)) ∧
    (∀ (e : v0.RequestExtractor) (p : List Byte),
      (e.Write p).panics = false → (e.Write p).n = p.length) :=
  ⟨fun e p => mongodb.Extractor_Write_n e p,
   fun _e _p => rfl,
   fun e p _hp => v0.RequestExtractor_Write_n e p⟩

/-- Witness for C7 at concrete inputs: a current-revision call, an outbound
stub call, and a non-panicking old-revision request call. -/
theorem c7_write_full_consumption_witness :
    ((mongodb.NewExtractor ctx0).Write msg17).n = msg17.length ∧
    v0.ResponseExtractor.Write ⟨ctx0⟩ msg17 = (msg17.length, none) ∧
    ((v0.NewRequestExtractor ctx0).Write msg16).n = msg16.length :=
  ⟨c7_write_full_consumption.1 (mongodb.NewExtractor ctx0) msg17,
   c7_write_full_consumption.2.1 ⟨ctx0⟩ msg17,
   c7_write_full_consumption.2.2 (v0.NewRequestExtractor ctx0) msg16 (by decide)⟩

/-- The guard in C7's old-revision conjunct is not vacuous in either
direction: the slice-bounds panic is reachable — 17 bytes whose size field
decodes to the negative `int32` `-5` pass the `int32(len) < size` comparison
and panic at `e.buf[:e.header.MessageSize]` — while ordinary calls do not
panic. -/
theorem v0_negative_size_slice_panic :
    message.getInt32 negSize17 0 = -5 ∧
    ((v0.NewRequestExtractor ctx0).Write negSize17).panics = true ∧
    ((v0.NewRequestExtractor ctx0).Write msg16).panics = false ∧
    ((v0.NewRequestExtractor ctx0).Write undersized17).panics = false := by
  decide

/-- C8: a header is decoded only once the buffered length strictly exceeds the
fixed header size (a buffer of exactly `HeaderLen` bytes is not decoded, the
call only appends); while a header is held with buffered length below the
declared size, the call returns successfully having done nothing beyond
appending the chunk (no extraction, no event); and a held header is never
replaced within a call — header decoding happens at most once per message
cycle. -/
theorem c8_header_decode_gate (e : mongodb.Extractor) (p : List Byte) :
    (e.header = none → (e.buf ++ p).length ≤ message.HeaderLen →
      e.Write p = ⟨p.length, none, ⟨e.context, none, e.buf ++ p, e.extract⟩, []⟩) ∧
    (∀ h, e.header = some h → (e.buf ++ p).length < h.MessageSize →
      e.Write p = ⟨p.length, none, ⟨e.context, some h, e.buf ++ p, e.extract⟩, []⟩) ∧
    (∀ h, e.header = some h →
      (e.Write p).state.header = some h ∨ (e.Write p).state.header = none) := by
  refine ⟨?_, ?_, ?_⟩
  · intro hnone hle
    exact mongodb.Write_eq_append_only e p hnone hle
  · intro h hsome hlt
    rw [mongodb.Write_eq_body_held e p h hsome]
    exact mongodb.writeBody_more _ h _ rfl (lt_of_le_of_lt (Nat.mod_le _ _) hlt)
  · intro h hsome
    rw [mongodb.Write_eq_body_held e p h hsome]
    exact mongodb.writeBody_header _ h _ rfl

/-- Witness for C8 at concrete inputs: a fresh extractor fed exactly
`HeaderLen` bytes only appends them, and an extractor holding a 20-byte header
with 16 buffered bytes neither extracts nor loses its header. -/
theorem c8_header_decode_gate_witness :
    ((mongodb.NewExtractor ctx0).Write msg16 =
      ⟨msg16.length, none, ⟨(mongodb.NewExtractor ctx0).context, none,
        (mongodb.NewExtractor ctx0).buf ++ msg16,
        (mongodb.NewExtractor ctx0).extract⟩, []⟩) ∧
    (heldExtractor.Write [] =
      ⟨0, none, ⟨heldExtractor.context, some h20q,
        heldExtractor.buf ++ [], heldExtractor.extract⟩, []⟩) ∧
    ((heldExtractor.Write []).state.header = some h20q ∨
      (heldExtractor.Write []).state.header = none) :=
  ⟨(c8_header_decode_gate (mongodb.NewExtractor ctx0) msg16).1 rfl (by decide),
   (c8_header_decode_gate heldExtractor []).2.1 h20q rfl (by decide),
   (c8_header_decode_gate heldExtractor []).2.2 h20q rfl⟩

/-- C1 counterexample: an extractor holding the complete buffered 20-byte
message with unrecognized opcode `0xFFFF`.  The `Write` call that attempts the
extraction surfaces the error but does NOT perform the reset step: no byte is
dropped from the buffer front and the held header is not cleared — and a
following valid message (`msg17`) on the same stream is consequently not
decoded (the same failing 20-byte slice is re-extracted instead). -/
theorem c1_reset_after_failed_extraction_refuted :
    (heldBadExtractor.Write []).err =
      some (message.ExtractError.unknownOpcode 65535) ∧
    (heldBadExtractor.Write []).state.buf = badUnknown20 ∧
    (heldBadExtractor.Write []).state.header = some hUnknown20 ∧
    (heldBadExtractor.Write []).events = [] ∧
    ((heldBadExtractor.Write []).state.Write msg17).events = [] ∧
    ((heldBadExtractor.Write []).state.Write msg17).err =
      some (message.ExtractError.unknownOpcode 65535) := by
  decide

/-- C1 (amended): a `Write` call that attempts a failing extraction of a held,
completely buffered message returns the error WITHOUT the reset step — the
buffer keeps every byte (including the failed message's `header.size` front
bytes) and the held header stays in place, so subsequent calls re-attempt the
same message and a following valid message on the stream is not reached. -/
theorem c1_failed_extraction_skips_reset (e : mongodb.Extractor)
    (p : List Byte) (h : message.MessageHeader) (err : message.ExtractError)
    (hsome : e.header = some h)
    (hge : h.MessageSize ≤ (e.buf ++ p).length % 4294967296)
    (hex : e.extract h ((e.buf ++ p).take h.MessageSize) = .error err) :
    e.Write p = ⟨p.length, some err,
      ⟨e.context, some h, e.buf ++ p, e.extract⟩, []⟩ := by
  rw [mongodb.Write_eq_body_held e p h hsome]
  exact mongodb.writeBody_err _ h _ err rfl
    (by simpa using Nat.not_lt.mpr hge) (by simpa using hex)

/-- Witness for the amended C1 at the concrete unknown-opcode message. -/
theorem c1_failed_extraction_skips_reset_witness :
    heldBadExtractor.Write [] = ⟨0, some (message.ExtractError.unknownOpcode 65535),
      ⟨heldBadExtractor.context, some hUnknown20, heldBadExtractor.buf ++ [],
        heldBadExtractor.extract⟩, []⟩ :=
  c1_failed_extraction_skips_reset heldBadExtractor [] hUnknown20
    (message.ExtractError.unknownOpcode 65535) rfl (by decide) (by decide)

/-- C9 counterexample: a fresh extractor receiving one complete message with a
recognized-but-unimplemented opcode in a single chunk.  The call returns an
error, and its post-call state is NOT the state just after appending the chunk:
just after the append the extractor held no header, while after the call the
header decoded during the failing call is held. -/
theorem c9_error_state_equals_append_state_refuted :
    ((mongodb.NewExtractor ctx0).Write badUpdate20).err =
      some (message.ExtractError.initMongoMessageError
        (.notImplemented "OpUpdate")) ∧
    (mongodb.NewExtractor ctx0).header = none ∧
    ((mongodb.NewExtractor ctx0).Write badUpdate20).state.header =
      some hUpdate20 := by
  decide

/-- C9 (amended): whenever a `Write` call returns a non-nil error, no buffered
byte is discarded (the buffer is exactly the entry buffer followed by the
chunk), no event is emitted, the context is untouched, and a held header is
not cleared by the failing path — though the failing call may additionally
hold the header it just decoded — so the next call re-attempts the same
decode against the accumulated buffer. -/
theorem c9_error_keeps_accumulated_state (e : mongodb.Extractor)
    (p : List Byte) (herr : (e.Write p).err.isSome) :
    (e.Write p).state.buf = e.buf ++ p ∧ (e.Write p).events = [] ∧
    (e.Write p).state.context = e.context ∧
    (∀ h, e.header = some h → (e.Write p).state.header = some h) := by
  cases hhdr : e.header with
  | some h =>
    rw [mongodb.Write_eq_body_held e p h hhdr] at herr ⊢
    by_cases hlt : (e.buf ++ p).length % 4294967296 < h.MessageSize
    · rw [mongodb.writeBody_more ⟨e.context, some h, e.buf ++ p, e.extract⟩
        h p.length rfl (by simpa using hlt)] at herr
      simp at herr
    · cases hext : e.extract h ((e.buf ++ p).take h.MessageSize) with
      | error err =>
        rw [mongodb.writeBody_err ⟨e.context, some h, e.buf ++ p, e.extract⟩
          h p.length err rfl (by simpa using hlt) (by simpa using hext)]
        refine ⟨rfl, rfl, rfl, ?_⟩
        intro h' hh'
        exact hh'
      | ok m =>
        rw [mongodb.writeBody_ok ⟨e.context, some h, e.buf ++ p, e.extract⟩
          h p.length m rfl (by simpa using hlt) (by simpa using hext)] at herr
        simp at herr
  | none =>
    by_cases hgt : message.HeaderLen < (e.buf ++ p).length
    · cases hdec : message.DecodeHeader (e.buf ++ p) with
      | error err =>
        rw [mongodb.Write_eq_decode_err e p err hhdr hgt hdec]
        refine ⟨rfl, rfl, rfl, ?_⟩
        intro h' hh'
        simp at hh'
      | ok h =>
        rw [mongodb.Write_eq_decode e p h hhdr hgt hdec] at herr ⊢
        by_cases hlt : (e.buf ++ p).length % 4294967296 < h.MessageSize
        · rw [mongodb.writeBody_more ⟨e.context, some h, e.buf ++ p, e.extract⟩
            h p.length rfl (by simpa using hlt)] at herr
          simp at herr
        · cases hext : e.extract h ((e.buf ++ p).take h.MessageSize) with
          | error err =>
            rw [mongodb.writeBody_err ⟨e.context, some h, e.buf ++ p, e.extract⟩
              h p.length err rfl (by simpa using hlt) (by simpa using hext)]
            refine ⟨rfl, rfl, rfl, ?_⟩
            intro h' hh'
            simp at hh'
          | ok m =>
            rw [mongodb.writeBody_ok ⟨e.context, some h, e.buf ++ p, e.extract⟩
              h p.length m rfl (by simpa using hlt) (by simpa using hext)] at herr
            simp at herr
    · rw [mongodb.Write_eq_append_only e p hhdr (Nat.not_lt.mp hgt)] at herr
      simp at herr

/-- Witness for the amended C9 at the unimplemented-opcode message fed to a
fresh extractor. -/
theorem c9_error_keeps_accumulated_state_witness :
    ((mongodb.NewExtractor ctx0).Write badUpdate20).state.buf =
      (mongodb.NewExtractor ctx0).buf ++ badUpdate20 ∧
    ((mongodb.NewExtractor ctx0).Write badUpdate20).events = [] ∧
    ((mongodb.NewExtractor ctx0).Write badUpdate20).state.context =
      (mongodb.NewExtractor ctx0).context ∧
    (∀ h, (mongodb.NewExtractor ctx0).header = some h →
      ((mongodb.NewExtractor ctx0).Write badUpdate20).state.header = some h) :=
  c9_error_keeps_accumulated_state (mongodb.NewExtractor ctx0) badUpdate20
    (by decide)

/-- C5: `extractMessage` returns an error whenever the slice length differs
from `header.size`; a hard unknown-opcode error for every opcode outside the
recognized set; the explicit non-fatal not-implemented error (wrapped as the
init-message error) naming the opcode, for each recognized-but-unimplemented
opcode; and for implemented opcodes a `Message` whose normalized tuple is
produced through the shared `ExtractBasic` capability. -/
theorem c5_extractMessage_dispatch (h : message.MessageHeader) (b : List Byte) :
    (b.length ≠ h.MessageSize →
      message.extractMessage h b =
        .error (.sizeMismatch b.length h.MessageSize)) ∧
    (b.length = h.MessageSize → h.OpCode ∉ message.recognizedOpCodes →
      message.extractMessage h b = .error (.unknownOpcode h.OpCode)) ∧
    (b.length = h.MessageSize → h.OpCode ∈ message.recognizedOpCodes →
      h.OpCode ∉ message.implementedOpCodes →
      message.extractMessage h b =
        .error (.initMongoMessageError
          (.notImplemented (message.notImplementedName h.OpCode)))) ∧
    (b.length = h.MessageSize → h.OpCode ∈ message.implementedOpCodes →
      message.extractMessage h b =
        .ok (message.messageOfMongo ⟨h, b, h.OpCode⟩)) := by
  refine ⟨?_, ?_, ?_, ?_⟩
  · intro hlen
    unfold message.extractMessage
    rw [if_pos hlen]
  · intro hlen hnr
    simp only [message.recognizedOpCodes, List.mem_cons, List.not_mem_nil,
      or_false, not_or] at hnr
    obtain ⟨n1, n2, n3, n4, n5, n6, n7, n8, n9, n10, n11⟩ := hnr
    unfold message.extractMessage
    rw [if_neg (by omega), if_neg n1, if_neg n2, if_neg n3, if_neg n4,
      if_neg n5, if_neg n6, if_neg n7, if_neg n8, if_neg n9, if_neg n10,
      if_neg n11]
  · intro hlen hr hni
    simp only [message.recognizedOpCodes, List.mem_cons, List.not_mem_nil,
      or_false] at hr
    simp only [message.implementedOpCodes, List.mem_cons, List.not_mem_nil,
      or_false, not_or] at hni
    obtain ⟨i1, i2, i3⟩ := hni
    unfold message.extractMessage
    rw [if_neg (by omega)]
    rcases hr with hop | hop | hop | hop | hop | hop | hop | hop | hop | hop | hop
    · exact absurd hop i1
    · simp [hop, message.OpReply, message.OpUpdate, message.OpInsert,
        message.Reserved, message.OpQuery, message.OpGetMore, message.OpDelete,
        message.OpKillCursors, message.OpCommand, message.OpCommandReply,
        message.OpMsg, message.finishMongo, message.notImplementedName]
    · simp [hop, message.OpReply, message.OpUpdate, message.OpInsert,
        message.Reserved, message.OpQuery, message.OpGetMore, message.OpDelete,
        message.OpKillCursors, message.OpCommand, message.OpCommandReply,
        message.OpMsg, message.finishMongo, message.notImplementedName]
    · simp [hop, message.OpReply, message.OpUpdate, message.OpInsert,
        message.Reserved, message.OpQuery, message.OpGetMore, message.OpDelete,
        message.OpKillCursors, message.OpCommand, message.OpCommandReply,
        message.OpMsg, message.finishMongo, message.notImplementedName]
    · exact absurd hop i2
    · simp [hop, message.OpReply, message.OpUpdate, message.OpInsert,
        message.Reserved, message.OpQuery, message.OpGetMore, message.OpDelete,
        message.OpKillCursors, message.OpCommand, message.OpCommandReply,
        message.OpMsg, message.finishMongo, message.notImplementedName]
    · simp [hop, message.OpReply, message.OpUpdate, message.OpInsert,
        message.Reserved, message.OpQuery, message.OpGetMore, message.OpDelete,
        message.OpKillCursors, message.OpCommand, message.OpCommandReply,
        message.OpMsg, message.finishMongo, message.notImplementedName]
    · simp [hop, message.OpReply, message.OpUpdate, message.OpInsert,
        message.Reserved, message.OpQuery, message.OpGetMore, message.OpDelete,
        message.OpKillCursors, message.OpCommand, message.OpCommandReply,
        message.OpMsg, message.finishMongo, message.notImplementedName]
    · simp [hop, message.OpReply, message.OpUpdate, message.OpInsert,
        message.Reserved, message.OpQuery, message.OpGetMore, message.OpDelete,
        message.OpKillCursors, message.OpCommand, message.OpCommandReply,
        message.OpMsg, message.finishMongo, message.notImplementedName]
    · simp [hop, message.OpReply, message.OpUpdate, message.OpInsert,
        message.Reserved, message.OpQuery, message.OpGetMore, message.OpDelete,
        message.OpKillCursors, message.OpCommand, message.OpCommandReply,
        message.OpMsg, message.finishMongo, message.notImplementedName]
    · exact absurd hop i3
  · intro hlen himpl
    exact extractMessage_ok_impl h b hlen himpl

/-- Witness for C5: each dispatch branch at a concrete input — a short slice,
the unknown opcode `0xFFFF`, the unimplemented `OP_UPDATE`, and the
implemented `OP_QUERY`. -/
theorem c5_extractMessage_dispatch_witness :
    message.extractMessage h20q [] =
      .error (.sizeMismatch 0 20) ∧
    message.extractMessage hUnknown20 badUnknown20 =
      .error (.unknownOpcode 65535) ∧
    message.extractMessage hUpdate20 badUpdate20 =
      .error (.initMongoMessageError (.notImplemented "OpUpdate")) ∧
    message.extractMessage h20q msg20q =
      .ok (message.messageOfMongo ⟨h20q, msg20q, h20q.OpCode⟩) :=
  ⟨(c5_extractMessage_dispatch h20q []).1 (by decide),
   (c5_extractMessage_dispatch hUnknown20 badUnknown20).2.1 (by decide) (by decide),
   (c5_extractMessage_dispatch hUpdate20 badUpdate20).2.2.1 (by decide)
     (by decide) (by decide),
   (c5_extractMessage_dispatch h20q msg20q).2.2.2 (by decide) (by decide)⟩

/-- C6 counterexample: a 17-byte buffer whose header declares `size = 10`,
smaller than the 16-byte header length, with opcode `OP_QUERY`.  `decodeHeader`
accepts it, the extraction of the 10-byte slice also succeeds, and the `Write`
call on a fresh request extractor advances — it extracts, emits, and drops 10
bytes, leaving a misaligned 7-byte buffer — instead of rejecting the header. -/
theorem c6_undersized_header_rejected_refuted :
    v0.decodeHeader undersized17 = .ok hUndersized ∧
    hUndersized.MessageSize = 10 ∧
    ((10 : Int) < 16) ∧
    v0.extractMessage hUndersized (undersized17.take 10) =
      .ok ⟨"", ⟨hUndersized, undersized17.take 10, 2004⟩⟩ ∧
    ((v0.NewRequestExtractor ctx0).Write undersized17).err = none ∧
    ((v0.NewRequestExtractor ctx0).Write undersized17).events.length = 1 ∧
    ((v0.NewRequestExtractor ctx0).Write undersized17).state.buf.length = 7 := by
  decide

/-- C6 (amended): `decodeHeader` checks only that at least `HeaderLen` bytes
are available and performs no validation of the declared size field: every
buffer of at least `HeaderLen` bytes decodes successfully to the header whose
fields are read from it, whatever its size field says — a header claiming
`size` smaller than the fixed header length is accepted rather than
rejected. -/
theorem c6_decodeHeader_no_size_validation (b : List Byte)
    (hlen : message.HeaderLen ≤ b.length) :
    v0.decodeHeader b = .ok { MessageSize := message.getInt32 b 0,
                              RequestID := message.getInt32 b 4,
                              ResponseTo := message.getInt32 b 8,
                              OpCode := message.getInt32 b 12 } := by
  unfold v0.decodeHeader
  rw [if_neg (by omega)]

/-- Witness for the amended C6 at the undersized concrete header. -/
theorem c6_decodeHeader_no_size_validation_witness :
    message.HeaderLen ≤ undersized17.length ∧
    v0.decodeHeader undersized17 =
      .ok { MessageSize := message.getInt32 undersized17 0,
            RequestID := message.getInt32 undersized17 4,
            ResponseTo := message.getInt32 undersized17 8,
            OpCode := message.getInt32 undersized17 12 } :=
  ⟨by decide, c6_decodeHeader_no_size_validation undersized17 (by decide)⟩

/-- C2 counterexample: the 16-byte message `msg16` has a valid header
(`size = 16 ≥ headerLen`, implemented opcode `OP_QUERY`, empty payload with
`len(p) = h.size - headerSize = 0`) and would extract successfully, yet
feeding its bytes to a fresh extractor as one chunk yields NO decoded message:
header decoding waits for strictly more than `HeaderLen` buffered bytes, so
the call returns with the bytes still buffered and no header held. -/
theorem c2_chunk_invariance_refuted :
    message.DecodeHeader msg16 = .ok h16 ∧
    msg16.length = h16.MessageSize ∧
    h16.OpCode ∈ message.implementedOpCodes ∧
    message.extractMessage h16 msg16 = .ok (message.decodedMessage h16 msg16) ∧
    (mongodb.feedAll (mongodb.NewExtractor ctx0) [msg16]).events = [] ∧
    (mongodb.feedAll (mongodb.NewExtractor ctx0) [msg16]).errs = [] ∧
    (mongodb.feedAll (mongodb.NewExtractor ctx0) [msg16]).state.buf = msg16 ∧
    (mongodb.feedAll (mongodb.NewExtractor ctx0) [msg16]).state.header = none := by
  decide

/-- C2 (amended): chunk-boundary invariance holds for every valid message
whose declared size strictly exceeds the header length (a message of exactly
`headerSize` bytes is never decoded on its own, because header decoding waits
for strictly more than `HeaderLen` buffered bytes): feeding the message to a
fresh extractor, split into one or several chunks at arbitrary boundaries,
yields exactly one successfully decoded message with the same derived fields
regardless of where the boundaries fall, no errors, and a drained extractor. -/
theorem c2_chunk_boundary_invariance (ctx : mongodb.DialogContext)
    (msg : List Byte) (h : message.MessageHeader) (chunks : List (List Byte))
    (hdec : message.DecodeHeader msg = .ok h)
    (hsz : msg.length = h.MessageSize)
    (hgt : message.HeaderLen < h.MessageSize)
    (himpl : h.OpCode ∈ message.implementedOpCodes)
    (hflat : chunks.flatten = msg) :
    (mongodb.feedAll (mongodb.NewExtractor ctx) chunks).events =
      [mongodb.eventOf ctx (message.decodedMessage h msg)] ∧
    (mongodb.feedAll (mongodb.NewExtractor ctx) chunks).errs = [] ∧
    (mongodb.feedAll (mongodb.NewExtractor ctx) chunks).state.buf = [] ∧
    (mongodb.feedAll (mongodb.NewExtractor ctx) chunks).state.header = none := by
  have hgt' : message.HeaderLen < msg.length := by rw [hsz]; exact hgt
  have hex := extractMessage_ok_impl h msg hsz himpl
  have hmain := mongodb.feedAll_completes ctx h msg
    (message.decodedMessage h msg) hdec hsz hgt' hex chunks []
    (by simpa using hflat) (Nat.lt_of_le_of_lt (Nat.zero_le _) hgt)
  have hmid : mongodb.midState ctx h [] = mongodb.NewExtractor ctx := by
    simp [mongodb.midState, mongodb.NewExtractor]
  rw [hmid] at hmain
  rw [hmain]
  exact ⟨rfl, rfl, rfl, rfl⟩

/-- Witness for the amended C2: the spec's scenario message (20 bytes, opcode
`OP_QUERY`, 4 payload bytes) delivered in two chunks of 12 and 8 bytes. -/
theorem c2_chunk_boundary_invariance_witness :
    (mongodb.feedAll (mongodb.NewExtractor ctx0) [msg20q.take 12, msg20q.drop 12]).events =
      [mongodb.eventOf ctx0 (message.decodedMessage h20q msg20q)] ∧
    (mongodb.feedAll (mongodb.NewExtractor ctx0) [msg20q.take 12, msg20q.drop 12]).errs = [] ∧
    (mongodb.feedAll (mongodb.NewExtractor ctx0) [msg20q.take 12, msg20q.drop 12]).state.buf = [] ∧
    (mongodb.feedAll (mongodb.NewExtractor ctx0) [msg20q.take 12, msg20q.drop 12]).state.header = none :=
  c2_chunk_boundary_invariance ctx0 msg20q h20q [msg20q.take 12, msg20q.drop 12]
    (by decide) (by decide) (by decide) (by decide) (by decide)

/-- A `Write` call that decodes a header but (per the `uint32`-truncated
length comparison) believes the message incomplete defers extraction, keeping
the appended buffer and the freshly decoded header. -/
theorem mongodb.Write_defers (e : mongodb.Extractor) (p : List Byte)
    (h : message.MessageHeader) (hnone : e.header = none)
    (hgt : message.HeaderLen < (e.buf ++ p).length)
    (hdec : message.DecodeHeader (e.buf ++ p) = .ok h)
    (hlt : (e.buf ++ p).length % 4294967296 < h.MessageSize) :
    e.Write p = ⟨p.length, none, ⟨e.context, some h, e.buf ++ p, e.extract⟩, []⟩ := by
  rw [mongodb.Write_eq_decode e p h hnone hgt hdec]
  exact mongodb.writeBody_more _ h _ rfl hlt

/-- C3 counterexample: `msg17` and `msgHuge` are two consecutive valid
messages (decodable headers, exact sizes, implemented opcodes, extraction
succeeds on each), but a single `Write` call delivering both extracts NO
message at all — not exactly one: the buffered length `2^32 + 16` is compared
as `uint32(len(e.buf))`, which wraps to `16 < 17`, so the call defers
extraction even though the first message is fully buffered. -/
theorem c3_one_message_per_write_refuted :
    message.DecodeHeader msg17 = .ok h17 ∧
    msg17.length = h17.MessageSize ∧
    message.extractMessage h17 msg17 = .ok (message.decodedMessage h17 msg17) ∧
    message.DecodeHeader msgHuge = .ok hHuge ∧
    msgHuge.length = hHuge.MessageSize ∧
    message.extractMessage hHuge msgHuge = .ok (message.decodedMessage hHuge msgHuge) ∧
    ((mongodb.NewExtractor ctx0).Write (msg17 ++ msgHuge)).events = [] ∧
    ((mongodb.NewExtractor ctx0).Write (msg17 ++ msgHuge)).err = none := by
  have hlenH : msgHuge.length = 4294967295 := by
    unfold msgHuge
    rw [List.length_append, List.length_replicate]
    decide
  have hdec17 : message.DecodeHeader msg17 = .ok h17 := by decide
  have hex17 : message.extractMessage h17 msg17 =
      .ok (message.decodedMessage h17 msg17) :=
    extractMessage_ok_impl h17 msg17 (by decide) (by decide)
  have hszH : msgHuge.length = hHuge.MessageSize := by rw [hlenH]; rfl
  have hdecH : message.DecodeHeader msgHuge = .ok hHuge := by
    unfold message.DecodeHeader
    rw [if_neg (by rw [hlenH]; decide)]
    rfl
  have hexH : message.extractMessage hHuge msgHuge =
      .ok (message.decodedMessage hHuge msgHuge) :=
    extractMessage_ok_impl hHuge msgHuge hszH (by decide)
  have hlen12 : (msg17 ++ msgHuge).length = 4294967312 := by
    rw [List.length_append, hlenH]
    decide
  have hdec12 : message.DecodeHeader (msg17 ++ msgHuge) = .ok h17 := by
    rw [DecodeHeader_append msg17 msgHuge (by decide)]
    exact hdec17
  have hbufnil : (mongodb.NewExtractor ctx0).buf = ([] : List Byte) := rfl
  have hgt12 : message.HeaderLen <
      ((mongodb.NewExtractor ctx0).buf ++ (msg17 ++ msgHuge)).length := by
    rw [hbufnil, List.nil_append, hlen12]; decide
  have hdec12' : message.DecodeHeader
      ((mongodb.NewExtractor ctx0).buf ++ (msg17 ++ msgHuge)) = .ok h17 := by
    rw [hbufnil, List.nil_append]; exact hdec12
  have hmod : (((mongodb.NewExtractor ctx0).buf ++ (msg17 ++ msgHuge)).length %
      4294967296) < h17.MessageSize := by
    rw [hbufnil, List.nil_append, hlen12]; decide
  have hfinal := mongodb.Write_defers (mongodb.NewExtractor ctx0)
    (msg17 ++ msgHuge) h17 rfl hgt12 hdec12' hmod
  refine ⟨hdec17, by decide, hex17, hdecH, hszH, hexH, ?_, ?_⟩
  · rw [hfinal]
  · rw [hfinal]

/-- C3 (amended): the pipelining property holds whenever the total buffered
length stays below `2^32` (the source compares `uint32(len(e.buf))` against
the header's size, so a call buffering at least `2^32` bytes wraps and can
defer extraction): a single `Write` call delivering bytes completing two or
more consecutive valid messages — any number of them, optionally followed by
arbitrary trailing bytes such as a fragment of a further message — extracts
and emits exactly the first message; all remaining bytes stay in the buffer
byte-for-byte, and each subsequent call extracts exactly one of the remaining
complete messages in order, finally leaving exactly the trailing bytes: no
byte is lost and no byte is consumed twice. -/
theorem c3_pipelining_one_message_per_call (ctx : mongodb.DialogContext)
    (m1 : List Byte) (rest : List (List Byte)) (extra : List Byte)
    (_hone : rest ≠ [])
    (hval : ∀ m ∈ m1 :: rest, message.validMsg m = true)
    (hlen : ((m1 :: rest).flatten ++ extra).length < 4294967296) :
    ((mongodb.NewExtractor ctx).Write ((m1 :: rest).flatten ++ extra)).err = none ∧
    ((mongodb.NewExtractor ctx).Write ((m1 :: rest).flatten ++ extra)).events =
      [mongodb.msgEvent ctx m1] ∧
    ((mongodb.NewExtractor ctx).Write ((m1 :: rest).flatten ++ extra)).state.buf =
      rest.flatten ++ extra ∧
    ((mongodb.NewExtractor ctx).Write ((m1 :: rest).flatten ++ extra)).state.header =
      none ∧
    mongodb.feedAll
      ((mongodb.NewExtractor ctx).Write ((m1 :: rest).flatten ++ extra)).state
      (List.replicate rest.length []) =
      ⟨⟨mongodb.drainCtx ctx (m1 :: rest), none, extra, message.extractMessage⟩,
        mongodb.drainEvents (mongodb.msgCtx ctx m1) rest, []⟩ := by
  have hvm : message.validMsg m1 = true := hval m1 (by simp)
  have hassoc : (m1 :: rest).flatten ++ extra = m1 ++ (rest.flatten ++ extra) := by
    simp [List.flatten_cons, List.append_assoc]
  have hlen' : (m1 ++ (rest.flatten ++ extra)).length < 4294967296 := by
    rw [← hassoc]
    exact hlen
  have hW := mongodb.Write_first_of ctx [] ((m1 :: rest).flatten ++ extra) m1
    (rest.flatten ++ extra) hvm (by rw [List.nil_append]; exact hassoc) hlen'
  have hlen'' : (rest.flatten ++ extra).length < 4294967296 := by
    rw [List.length_append] at hlen'
    omega
  have hne : mongodb.NewExtractor ctx =
      (⟨ctx, none, [], message.extractMessage⟩ : mongodb.Extractor) := rfl
  rw [hne, hW]
  refine ⟨rfl, rfl, rfl, rfl, ?_⟩
  rw [mongodb.feedAll_drains rest (mongodb.msgCtx ctx m1) extra
    (fun x hx => hval x (List.mem_cons_of_mem _ hx)) hlen'']
  simp [mongodb.drainCtx]

/-- Witness for the amended C3: three consecutive valid messages (`msg17`,
`msg18`, `msg20q`) plus a 5-byte fragment of a further message, all delivered
in one call — the first call emits exactly `msg17`'s event, the two
subsequent calls drain `msg18` and `msg20q`, and exactly the fragment
remains. -/
theorem c3_pipelining_one_message_per_call_witness :
    ((mongodb.NewExtractor ctx0).Write
      ((msg17 :: [msg18, msg20q]).flatten ++ msg17.take 5)).err = none ∧
    ((mongodb.NewExtractor ctx0).Write
      ((msg17 :: [msg18, msg20q]).flatten ++ msg17.take 5)).events =
      [mongodb.msgEvent ctx0 msg17] ∧
    ((mongodb.NewExtractor ctx0).Write
      ((msg17 :: [msg18, msg20q]).flatten ++ msg17.take 5)).state.buf =
      [msg18, msg20q].flatten ++ msg17.take 5 ∧
    ((mongodb.NewExtractor ctx0).Write
      ((msg17 :: [msg18, msg20q]).flatten ++ msg17.take 5)).state.header = none ∧
    mongodb.feedAll
      ((mongodb.NewExtractor ctx0).Write
        ((msg17 :: [msg18, msg20q]).flatten ++ msg17.take 5)).state
      (List.replicate [msg18, msg20q].length []) =
      ⟨⟨mongodb.drainCtx ctx0 (msg17 :: [msg18, msg20q]), none, msg17.take 5,
          message.extractMessage⟩,
        mongodb.drainEvents (mongodb.msgCtx ctx0 msg17) [msg18, msg20q], []⟩ :=
  c3_pipelining_one_message_per_call ctx0 msg17 [msg18, msg20q] (msg17.take 5)
    (by decide) (by decide) (by decide)

/-- C4: within a dialog, the first decoded message carrying a non-empty
identity `u` promotes it into the dialog context (the context's user equals
`u` after the call, and the emitted event reports `u`); a later decoded
message without credentials inherits the context's current identity instead
of overwriting it — its event also reports `u` and the context still holds
`u`, so in this steady state the identity is set exactly once. -/
theorem c4_dialog_identity_propagation (e : mongodb.Extractor)
    (p1 p2 : List Byte) (h1 h2 : message.MessageHeader)
    (m1 m2 : message.Message) (u : String)
    (_hstart : e.context.User = "") (hu : u ≠ "")
    (hm1 : m1.DBUser = u) (hm2 : m2.DBUser = "")
    (hhdr1 : e.header = some h1 ∨
      (e.header = none ∧ message.HeaderLen < (e.buf ++ p1).length ∧
        message.DecodeHeader (e.buf ++ p1) = .ok h1))
    (hge1 : h1.MessageSize ≤ (e.buf ++ p1).length % 4294967296)
    (hex1 : e.extract h1 ((e.buf ++ p1).take h1.MessageSize) = .ok m1)
    (hlen2 : message.HeaderLen <
      ((e.buf ++ p1).drop h1.MessageSize ++ p2).length)
    (hdec2 : message.DecodeHeader
      ((e.buf ++ p1).drop h1.MessageSize ++ p2) = .ok h2)
    (hge2 : h2.MessageSize ≤
      ((e.buf ++ p1).drop h1.MessageSize ++ p2).length % 4294967296)
    (hex2 : e.extract h2
      (((e.buf ++ p1).drop h1.MessageSize ++ p2).take h2.MessageSize) = .ok m2) :
    (e.Write p1).state.context.User = u ∧
    (e.Write p1).events.map mongodb.LogEvent.Identity = [u] ∧
    ((e.Write p1).state.Write p2).state.context.User = u ∧
    ((e.Write p1).state.Write p2).events.map mongodb.LogEvent.Identity = [u] := by
  have hctx1 : (mongodb.applyContext e.context m1).1 = { e.context with User := u } := by
    simp [mongodb.applyContext, hm1, hu]
  have hmsg1 : (mongodb.applyContext e.context m1).2 = m1 := by
    simp [mongodb.applyContext, hm1, hu]
  have hW1 := mongodb.Write_ok e p1 h1 m1 hhdr1 hge1 hex1
  have hW2 := mongodb.Write_ok
    (⟨(mongodb.applyContext e.context m1).1, none,
      (e.buf ++ p1).drop h1.MessageSize, e.extract⟩ : mongodb.Extractor) p2 h2 m2
    (Or.inr ⟨rfl, hlen2, hdec2⟩) hge2 hex2
  have hctx2 : (mongodb.applyContext (mongodb.applyContext e.context m1).1 m2).1 =
      (mongodb.applyContext e.context m1).1 := by
    simp [mongodb.applyContext, hm2]
  have hmsg2 : (mongodb.applyContext (mongodb.applyContext e.context m1).1 m2).2 =
      { m2 with DBUser := (mongodb.applyContext e.context m1).1.User } := by
    simp [mongodb.applyContext, hm2]
  refine ⟨?_, ?_, ?_, ?_⟩
  · rw [hW1]
    show (mongodb.applyContext e.context m1).1.User = u
    rw [hctx1]
  · rw [hW1]
    show [(mongodb.eventOf e.context m1).Identity] = [u]
    rw [show (mongodb.eventOf e.context m1).Identity =
      (mongodb.applyContext e.context m1).2.DBUser from rfl]
    rw [hmsg1, hm1]
  · rw [hW1]
    show ((⟨(mongodb.applyContext e.context m1).1, none,
      (e.buf ++ p1).drop h1.MessageSize, e.extract⟩ : mongodb.Extractor).Write
        p2).state.context.User = u
    rw [hW2]
    show (mongodb.applyContext (mongodb.applyContext e.context m1).1 m2).1.User = u
    rw [hctx2, hctx1]
  · rw [hW1]
    show ((⟨(mongodb.applyContext e.context m1).1, none,
      (e.buf ++ p1).drop h1.MessageSize, e.extract⟩ : mongodb.Extractor).Write
        p2).events.map mongodb.LogEvent.Identity = [u]
    rw [hW2]
    show [(mongodb.eventOf (mongodb.applyContext e.context m1).1 m2).Identity] = [u]
    rw [show (mongodb.eventOf (mongodb.applyContext e.context m1).1 m2).Identity =
      (mongodb.applyContext (mongodb.applyContext e.context m1).1 m2).2.DBUser from rfl]
    rw [hmsg2]
    show [(mongodb.applyContext e.context m1).1.User] = [u]
    rw [hctx1]

/-- Witness for C4: an extractor state whose `extract` function reports
"alice" for the first message (`requestId = 1`) and no identity for the
second; both events report "alice" and the context keeps it. -/
theorem c4_dialog_identity_propagation_witness :
    (stubExtractor.Write msg17).state.context.User = "alice" ∧
    (stubExtractor.Write msg17).events.map mongodb.LogEvent.Identity = ["alice"] ∧
    ((stubExtractor.Write msg17).state.Write msg18).state.context.User = "alice" ∧
    ((stubExtractor.Write msg17).state.Write msg18).events.map
      mongodb.LogEvent.Identity = ["alice"] :=
  c4_dialog_identity_propagation stubExtractor msg17 msg18 h17 h18 mAlice mAnon
    "alice" rfl (by decide) (by decide) (by decide) (by decide) (by decide)
    (by decide) (by decide) (by decide) (by decide) (by decide)
